import Mathlib

/-!
Shallow embedding of `base/trace_event/trace_event_etw_export_win.cc`
(the ETW export bridge of the Chromium trace-event system), together with
theorems checking the natural-language specification against it.

The category registry (`std::map<StringPiece, bool> categories_status_`)
is embedded as an association list updated with `operator[]` semantics:
updating an existing key rewrites its value in place, a new key is
appended.  The 64-bit ETW keyword is embedded as `Nat` with the bit tests
written exactly as in the source (`kw &&& (1 <<< i) != 0`).
-/

set_option maxRecDepth 4000

namespace EtwExport

/-- The filtered event group names, in declaration order
(`kFilteredEventGroupNames` in the source); name `i` is controlled by
keyword bit `i`. -/
def kFilteredEventGroupNames : List String :=
  ["benchmark",
   "blink",
   "browser",
   "cc",
   "evdev",
   "gpu",
   "input",
   "netlog",
   "sequence_manager",
   "toplevel",
   "v8",
   "disabled-by-default-cc.debug",
   "disabled-by-default-cc.debug.picture",
   "disabled-by-default-toplevel.flow",
   "startup",
   "latency"]

/-- `kOtherEventsGroupName` in the source, controlled by keyword bit 61. -/
def kOtherEventsGroupName : String := "__OTHER_EVENTS"

/-- `kDisabledOtherEventsGroupName` in the source, controlled by keyword
bit 62. -/
def kDisabledOtherEventsGroupName : String := "__DISABLED_OTHER_EVENTS"

/-- `kOtherEventsKeywordBit = 1ULL << 61`. -/
def kOtherEventsKeywordBit : Nat := 1 <<< 61

/-- `kDisabledOtherEventsKeywordBit = 1ULL << 62`. -/
def kDisabledOtherEventsKeywordBit : Nat := 1 <<< 62

/-- `kNumberOfCategories = ARRAYSIZE(kFilteredEventGroupNames) + 2`. -/
def kNumberOfCategories : Nat := kFilteredEventGroupNames.length + 2

/-- The registry `categories_status_`, embedded as an association list. -/
abbrev CategoriesStatus := List (String × Bool)

/-- `m[key] = value` on the registry: rewrite the value of an existing
key, append a missing key. -/
def mapInsert : CategoriesStatus → String → Bool → CategoriesStatus
  | [], k, v => [(k, v)]
  | (k', v') :: rest, k, v =>
    if k' = k then (k, v) :: rest else (k', v') :: mapInsert rest k v

/-- `m.find(key)` on the registry. -/
def mapFind : CategoriesStatus → String → Option Bool
  | [], _ => none
  | (k', v') :: rest, k => if k' = k then some v' else mapFind rest k

/-- The key set of the registry (as the list of keys in storage order). -/
def mapKeys (m : CategoriesStatus) : List String := m.map Prod.fst

/-- All fixed category names: the filtered names followed by the two
synthetic catch-all names, exactly the keys seeded by the constructor. -/
def allCategoryNames : List String :=
  kFilteredEventGroupNames ++ [kOtherEventsGroupName, kDisabledOtherEventsGroupName]

/-- The mutable state of `TraceEventETWExport`: the cached keyword
`etw_match_any_keyword_` and the registry `categories_status_`. -/
structure TraceEventETWExportState where
  etw_match_any_keyword : Nat
  categories_status : CategoriesStatus

/-- The seeding loop of the constructor: every filtered name, then the
two synthetic names, each mapped to `false`. -/
def seedCategories : CategoriesStatus :=
  mapInsert
    (mapInsert
      (kFilteredEventGroupNames.foldl (fun m name => mapInsert m name false) [])
      kOtherEventsGroupName false)
    kDisabledOtherEventsGroupName false

/-- The state right after the constructor ran:
`etw_match_any_keyword_(0ULL)` and the seeded registry. -/
def initialState : TraceEventETWExportState :=
  { etw_match_any_keyword := 0, categories_status := seedCategories }

/-- The loop of `UpdateEnabledCategories` over the filtered names:
`categories_status_[kFilteredEventGroupNames[i]] = (keyword & (1ULL << i)) != 0`,
with `i` the running bit position. -/
def setFilteredCategories (kw : Nat) : Nat → List String → CategoriesStatus → CategoriesStatus
  | _, [], m => m
  | i, name :: rest, m =>
      setFilteredCategories kw (i + 1) rest (mapInsert m name (kw &&& (1 <<< i) != 0))

/-- `TraceEventETWExport::UpdateEnabledCategories`.  The current
`CHROME_Context.MatchAnyKeyword` is passed as the argument
`matchAnyKeyword` (it lives in the external ETW context).  Returns the
C++ return value paired with the updated state. -/
def UpdateEnabledCategories (s : TraceEventETWExportState) (matchAnyKeyword : Nat) :
    Bool × TraceEventETWExportState :=
  if s.etw_match_any_keyword == matchAnyKeyword then
    (false, s)
  else
    let kw := matchAnyKeyword
    let m := setFilteredCategories kw 0 kFilteredEventGroupNames s.categories_status
    let m := mapInsert m kOtherEventsGroupName (kw &&& kOtherEventsKeywordBit != 0)
    let m := mapInsert m kDisabledOtherEventsGroupName (kw &&& kDisabledOtherEventsKeywordBit != 0)
    (true, { etw_match_any_keyword := kw, categories_status := m })

/-- `StringPiece::starts_with`: character-wise prefix test. -/
def stringStartsWith (s pre : String) : Bool :=
  pre.data.isPrefixOf s.data

/-- `TraceEventETWExport::IsCategoryEnabled`: exact-match lookup, with a
fallback to the state of the matching synthetic catch-all category.  The
source reads the catch-all entry through `find(...)->second` after a
`DCHECK` that it exists; a (DCHECK-impossible) missing entry is read as
`false` via `Option.getD`. -/
def IsCategoryEnabled (s : TraceEventETWExportState) (category_name : String) : Bool :=
  match mapFind s.categories_status category_name with
  | some status => status
  | none =>
    if stringStartsWith category_name "disabled-by-default" then
      (mapFind s.categories_status kDisabledOtherEventsGroupName).getD false
    else
      (mapFind s.categories_status kOtherEventsGroupName).getD false

/-- Modelled from the spec: the comma tokenization performed by
`CStringTokenizer` (`base/strings/string_tokenizer.h`, not under `src/`):
"splits the input on commas", yielding the maximal non-empty runs of
non-comma characters in order. -/
def tokenizeCommas : List Char → List (List Char)
  | [] => []
  | c :: rest =>
    if c = ',' then tokenizeCommas rest
    else (c :: rest.takeWhile (· != ',')) :: tokenizeCommas (rest.dropWhile (· != ','))
termination_by l => l.length
decreasing_by
  · simp
  · simp only [List.length_cons]
    exact Nat.lt_succ_of_le (List.dropWhile_suffix _).sublist.length_le

/-- A split on commas written directly after the spec's words, keeping
the (possibly empty) pieces between consecutive commas.  Used only to
compare the tokenizer against the spec's description. -/
def splitCommasSpec : List Char → List (List Char)
  | [] => [[]]
  | c :: rest =>
    if c = ',' then [] :: splitCommasSpec rest
    else
      match splitCommasSpec rest with
      | [] => [[c]]
      | t :: ts => (c :: t) :: ts

/-- `TraceEventETWExport::IsCategoryGroupEnabled`.  The existence of the
singleton (`GetInstanceIfExists() != nullptr`) and the ETW listener state
(`EventEnabledChromeEvent()`) are passed as booleans; the leading
`DCHECK(!category_group_name.empty())` is embedded as the assertion
failure `none`. -/
def IsCategoryGroupEnabled (instanceExists eventEnabled : Bool)
    (s : TraceEventETWExportState) (category_group_name : String) : Option Bool :=
  if category_group_name.isEmpty then none
  else some
    (if !instanceExists then false
     else if !eventEnabled then false
     else (tokenizeCommas category_group_name.data).any
       (fun tok => IsCategoryEnabled s (String.mk tok)))

/-! Phase codes.  Modelled from the spec: the `TRACE_EVENT_PHASE_*`
character constants come from the trace-event system's common header
(`base/trace_event/common/trace_event_common.h`), which is not under
`src/`; the spec describes them as the in-process phase codes, each a
character. -/

/-- Modelled from the spec: phase code 'B'. -/
def TRACE_EVENT_PHASE_BEGIN : Char := 'B'
/-- Modelled from the spec: phase code 'E'. -/
def TRACE_EVENT_PHASE_END : Char := 'E'
/-- Modelled from the spec: phase code 'X'. -/
def TRACE_EVENT_PHASE_COMPLETE : Char := 'X'
/-- Modelled from the spec: phase code 'I'. -/
def TRACE_EVENT_PHASE_INSTANT : Char := 'I'
/-- Modelled from the spec: phase code 'S'. -/
def TRACE_EVENT_PHASE_ASYNC_BEGIN : Char := 'S'
/-- Modelled from the spec: phase code 'T'. -/
def TRACE_EVENT_PHASE_ASYNC_STEP_INTO : Char := 'T'
/-- Modelled from the spec: phase code 'p'. -/
def TRACE_EVENT_PHASE_ASYNC_STEP_PAST : Char := 'p'
/-- Modelled from the spec: phase code 'F'. -/
def TRACE_EVENT_PHASE_ASYNC_END : Char := 'F'
/-- Modelled from the spec: phase code 'b'. -/
def TRACE_EVENT_PHASE_NESTABLE_ASYNC_BEGIN : Char := 'b'
/-- Modelled from the spec: phase code 'e'. -/
def TRACE_EVENT_PHASE_NESTABLE_ASYNC_END : Char := 'e'
/-- Modelled from the spec: phase code 'n'. -/
def TRACE_EVENT_PHASE_NESTABLE_ASYNC_INSTANT : Char := 'n'
/-- Modelled from the spec: phase code 's'. -/
def TRACE_EVENT_PHASE_FLOW_BEGIN : Char := 's'
/-- Modelled from the spec: phase code 't'. -/
def TRACE_EVENT_PHASE_FLOW_STEP : Char := 't'
/-- Modelled from the spec: phase code 'f'. -/
def TRACE_EVENT_PHASE_FLOW_END : Char := 'f'
/-- Modelled from the spec: phase code 'M'. -/
def TRACE_EVENT_PHASE_METADATA : Char := 'M'
/-- Modelled from the spec: phase code 'C'. -/
def TRACE_EVENT_PHASE_COUNTER : Char := 'C'
/-- Modelled from the spec: phase code 'P'. -/
def TRACE_EVENT_PHASE_SAMPLE : Char := 'P'
/-- Modelled from the spec: phase code 'N'. -/
def TRACE_EVENT_PHASE_CREATE_OBJECT : Char := 'N'
/-- Modelled from the spec: phase code 'O'. -/
def TRACE_EVENT_PHASE_SNAPSHOT_OBJECT : Char := 'O'
/-- Modelled from the spec: phase code 'D'. -/
def TRACE_EVENT_PHASE_DELETE_OBJECT : Char := 'D'

/-- The phase codes handled by a `case` of the `switch` in `AddEvent`, in
source order. -/
def knownPhaseChars : List Char :=
  [TRACE_EVENT_PHASE_BEGIN, TRACE_EVENT_PHASE_END, TRACE_EVENT_PHASE_COMPLETE,
   TRACE_EVENT_PHASE_INSTANT, TRACE_EVENT_PHASE_ASYNC_BEGIN,
   TRACE_EVENT_PHASE_ASYNC_STEP_INTO, TRACE_EVENT_PHASE_ASYNC_STEP_PAST,
   TRACE_EVENT_PHASE_ASYNC_END, TRACE_EVENT_PHASE_NESTABLE_ASYNC_BEGIN,
   TRACE_EVENT_PHASE_NESTABLE_ASYNC_END, TRACE_EVENT_PHASE_NESTABLE_ASYNC_INSTANT,
   TRACE_EVENT_PHASE_FLOW_BEGIN, TRACE_EVENT_PHASE_FLOW_STEP,
   TRACE_EVENT_PHASE_FLOW_END, TRACE_EVENT_PHASE_METADATA,
   TRACE_EVENT_PHASE_COUNTER, TRACE_EVENT_PHASE_SAMPLE,
   TRACE_EVENT_PHASE_CREATE_OBJECT, TRACE_EVENT_PHASE_SNAPSHOT_OBJECT,
   TRACE_EVENT_PHASE_DELETE_OBJECT]

/-- The `switch (phase)` of `AddEvent` computing `phase_string`; the
`default` branch builds the one-character string holding the raw phase
code (`phase_buffer`). -/
def getPhaseString (phase : Char) : String :=
  if phase = TRACE_EVENT_PHASE_BEGIN then "Begin"
  else if phase = TRACE_EVENT_PHASE_END then "End"
  else if phase = TRACE_EVENT_PHASE_COMPLETE then "Complete"
  else if phase = TRACE_EVENT_PHASE_INSTANT then "Instant"
  else if phase = TRACE_EVENT_PHASE_ASYNC_BEGIN then "Async Begin"
  else if phase = TRACE_EVENT_PHASE_ASYNC_STEP_INTO then "Async Step Into"
  else if phase = TRACE_EVENT_PHASE_ASYNC_STEP_PAST then "Async Step Past"
  else if phase = TRACE_EVENT_PHASE_ASYNC_END then "Async End"
  else if phase = TRACE_EVENT_PHASE_NESTABLE_ASYNC_BEGIN then "Nestable Async Begin"
  else if phase = TRACE_EVENT_PHASE_NESTABLE_ASYNC_END then "Nestable Async End"
  else if phase = TRACE_EVENT_PHASE_NESTABLE_ASYNC_INSTANT then "Nestable Async Instant"
  else if phase = TRACE_EVENT_PHASE_FLOW_BEGIN then "Phase Flow Begin"
  else if phase = TRACE_EVENT_PHASE_FLOW_STEP then "Phase Flow Step"
  else if phase = TRACE_EVENT_PHASE_FLOW_END then "Phase Flow End"
  else if phase = TRACE_EVENT_PHASE_METADATA then "Phase Metadata"
  else if phase = TRACE_EVENT_PHASE_COUNTER then "Phase Counter"
  else if phase = TRACE_EVENT_PHASE_SAMPLE then "Phase Sample"
  else if phase = TRACE_EVENT_PHASE_CREATE_OBJECT then "Phase Create Object"
  else if phase = TRACE_EVENT_PHASE_SNAPSHOT_OBJECT then "Phase Snapshot Object"
  else if phase = TRACE_EVENT_PHASE_DELETE_OBJECT then "Phase Delete Object"
  else String.mk [phase]

/-! The argument list.  `TraceArguments` and `TraceValue::AppendAsJSON`
live in `base/trace_event/trace_arguments.{h,cc}`, which is not under
`src/`; they are modelled from the spec. -/

/-- The `TRACE_VALUE_TYPE_*` argument kinds; only the
convertible/complex kind is distinguished by the export path. -/
inductive TraceValueType where
  | typeBool
  | typeUInt
  | typeInt
  | typeDouble
  | typePointer
  | typeString
  | typeCopyString
  | typeConvertable
deriving DecidableEq

/-- Modelled from the spec: one entry of the structured argument list —
a name, a typed value kind, and (standing in for the typed value) the
JSON-ish string `TraceValue::AppendAsJSON` would append for it. -/
structure TraceArg where
  name : String
  type : TraceValueType
  jsonValue : String

/-- Modelled from the spec: `AppendAsJSON` appends the value's JSON-ish
rendering to the destination string. -/
def appendAsJSON (arg : TraceArg) (dest : String) : String :=
  dest ++ arg.jsonValue

/-- Modelled from the spec: the fixed cap on forwarded arguments
("observed cap: 2"). -/
def kTraceArgumentsMaxSize : Nat := 2

/-- Modelled from the spec: `TraceArguments` holds an ordered argument
list of at most `kTraceArgumentsMaxSize` entries. -/
structure TraceArguments where
  argList : List TraceArg
  size_le_max : argList.length ≤ kTraceArgumentsMaxSize

/-- Write through index `i` of the fixed-size local string storage,
failing (`none`) on an out-of-bounds access. -/
def storeModify (store : List String) (i : Nat) (f : String → String) : Option (List String) :=
  match store, i with
  | [], _ => none
  | x :: rest, 0 => some (f x :: rest)
  | x :: rest, n + 1 => (storeModify rest n f).map (x :: ·)

/-- The rendering loop of `AddEvent` over
`std::string arg_values_string[3]`: an argument of the convertible kind
is skipped, any other argument has its JSON-ish rendering appended at
its index. -/
def renderArgValues : List TraceArg → Nat → List String → Option (List String)
  | [], _, store => some store
  | arg :: rest, i, store =>
    if arg.type = TraceValueType.typeConvertable then
      renderArgValues rest (i + 1) store
    else
      match storeModify store i (appendAsJSON arg) with
      | none => none
      | some store' => renderArgValues rest (i + 1) store'

/-- The 8 string fields handed to `EventWriteChromeEvent`. -/
structure ChromeEventFields where
  eventName : String
  phaseLabel : String
  argName1 : String
  argVal1 : String
  argName2 : String
  argVal2 : String
  field7 : String
  field8 : String
deriving DecidableEq

/-- `TraceEventETWExport::AddEvent`.  The singleton's existence and
`EventEnabledChromeEvent()` are booleans; the result is `none` on an
out-of-bounds store access (impossible, see the theorems), otherwise
`some none` when the call bails out without writing and
`some (some w)` when it hands `w` to `EventWriteChromeEvent`. -/
def AddEvent (instanceExists eventEnabled : Bool) (phase : Char) (name : String)
    (args : Option TraceArguments) : Option (Option ChromeEventFields) :=
  if !instanceExists || !eventEnabled then some none
  else
    let phase_string := getPhaseString phase
    let argL := match args with
      | some a => a.argList
      | none => []
    let num_args := argL.length
    match renderArgValues argL 0 ["", "", ""] with
    | none => none
    | some store =>
      some (some
        { eventName := name
          phaseLabel := phase_string
          argName1 := if num_args > 0 then (match argL with
            | [] => ""
            | a :: _ => a.name) else ""
          argVal1 := store.getD 0 ""
          argName2 := if num_args > 1 then (match argL with
            | _ :: b :: _ => b.name
            | _ => "") else ""
          argVal2 := store.getD 1 ""
          field7 := ""
          field8 := "" })

/-- `TraceEventETWExport::AddCompleteEndEvent`, same gating as
`AddEvent`. -/
def AddCompleteEndEvent (instanceExists eventEnabled : Bool) (name : String) :
    Option ChromeEventFields :=
  if !instanceExists || !eventEnabled then none
  else some
    { eventName := name, phaseLabel := "Complete End"
      argName1 := "", argVal1 := "", argName2 := "", argVal2 := ""
      field7 := "", field8 := "" }

/-! Helper lemmas about the registry embedding. -/

theorem mapFind_mapInsert (m : CategoriesStatus) (k : String) (v : Bool) (q : String) :
    mapFind (mapInsert m k v) q = if k = q then some v else mapFind m q := by
  induction m with
  | nil => simp [mapInsert, mapFind]
  | cons p rest ih =>
    obtain ⟨k', v'⟩ := p
    by_cases hk : k' = k
    · subst hk
      by_cases hq : k' = q <;> simp [mapInsert, mapFind, hq]
    · by_cases hq : k' = q
      · subst hq
        have hkq : k ≠ k' := fun h => hk h.symm
        simp [mapInsert, mapFind, hk, hkq]
      · simp [mapInsert, mapFind, hk, hq, ih]

theorem mapKeys_mapInsert_of_mem (m : CategoriesStatus) (k : String) (v : Bool)
    (h : k ∈ mapKeys m) : mapKeys (mapInsert m k v) = mapKeys m := by
  induction m with
  | nil => simp [mapKeys] at h
  | cons p rest ih =>
    obtain ⟨k', v'⟩ := p
    by_cases hk : k' = k
    · subst hk
      simp [mapInsert, mapKeys]
    · have hm : k ∈ mapKeys rest := by
        simp only [mapKeys, List.map_cons, List.mem_cons] at h
        rcases h with h | h
        · exact absurd h.symm hk
        · exact h
      simp only [mapInsert, hk, if_false, mapKeys, List.map_cons]
      rw [show List.map Prod.fst (mapInsert rest k v) = mapKeys (mapInsert rest k v) from rfl,
        ih hm]
      rfl

theorem length_eq_length_mapKeys (m : CategoriesStatus) : m.length = (mapKeys m).length := by
  simp [mapKeys]

theorem mapFind_setFilteredCategories_not_mem (kw j : Nat) (names : List String)
    (m : CategoriesStatus) (q : String) (h : q ∉ names) :
    mapFind (setFilteredCategories kw j names m) q = mapFind m q := by
  induction names generalizing j m with
  | nil => simp [setFilteredCategories]
  | cons name rest ih =>
    simp only [List.mem_cons, not_or] at h
    simp only [setFilteredCategories]
    rw [ih (j + 1) _ h.2, mapFind_mapInsert]
    simp [Ne.symm h.1]

theorem mapFind_setFilteredCategories_get (kw : Nat) (names : List String) (hnd : names.Nodup)
    (j : Nat) (m : CategoriesStatus) (i : Nat) (hi : i < names.length) :
    mapFind (setFilteredCategories kw j names m) (names.get ⟨i, hi⟩) =
      some (kw &&& (1 <<< (j + i)) != 0) := by
  induction names generalizing j m i with
  | nil => simp at hi
  | cons name rest ih =>
    rw [List.nodup_cons] at hnd
    cases i with
    | zero =>
      simp only [List.get, setFilteredCategories]
      rw [mapFind_setFilteredCategories_not_mem kw (j + 1) rest _ name hnd.1,
        mapFind_mapInsert]
      simp
    | succ i' =>
      simp only [List.get, setFilteredCategories]
      have harith : j + (i' + 1) = (j + 1) + i' := by omega
      rw [harith]
      exact ih hnd.2 (j + 1) _ i' (by simpa using Nat.lt_of_succ_lt_succ hi)

theorem mapKeys_setFilteredCategories (kw j : Nat) (names : List String)
    (m : CategoriesStatus) (h : ∀ n ∈ names, n ∈ mapKeys m) :
    mapKeys (setFilteredCategories kw j names m) = mapKeys m := by
  induction names generalizing j m with
  | nil => rfl
  | cons name rest ih =>
    have hastep : mapKeys (mapInsert m name (kw &&& (1 <<< j) != 0)) = mapKeys m :=
      mapKeys_mapInsert_of_mem m name _ (h name (by simp))
    simp only [setFilteredCategories]
    rw [ih (j + 1) _ (fun n hn => by rw [hastep]; exact h n (by simp [hn])), hastep]

theorem and_one_shiftLeft_bne_zero (kw i : Nat) :
    (kw &&& (1 <<< i) != 0) = kw.testBit i := by
  rw [Nat.one_shiftLeft, Nat.and_two_pow]
  cases h : kw.testBit i
  · simp
  · simp [(Nat.two_pow_pos i).ne']

/-- C3: once `decode(k)` has been applied the cached keyword equals `k`, so a
second `decode(k)` takes the short-circuit branch: it returns `false`
("unchanged") and leaves the whole state — every category value and the
cached keyword — exactly as it was. -/
theorem decode_same_keyword_noop (s : TraceEventETWExportState) (k : Nat) :
    UpdateEnabledCategories (UpdateEnabledCategories s k).2 k =
      (false, (UpdateEnabledCategories s k).2) := by
  by_cases h : s.etw_match_any_keyword == k
  · simp [UpdateEnabledCategories, h]
  · simp [UpdateEnabledCategories, h]

/-- C6: calling `IsCategoryGroupEnabled` on the empty category-group string
trips the leading `DCHECK` (embedded as the assertion-failure result
`none`, a value distinct from every ordinary result `some b`): the call is
rejected, it is not silently mapped to the `false` result `some false`. -/
theorem isCategoryGroupEnabled_empty_rejected :
    ∀ (instanceExists eventEnabled : Bool) (s : TraceEventETWExportState),
      IsCategoryGroupEnabled instanceExists eventEnabled s "" = none := by
  intro ie ee s
  rfl

/-- C1: for a keyword `k` different from the cached one, `decode(k)`
(`UpdateEnabledCategories`) enables each filtered category at declaration
position `i` exactly when bit `i` of `k` is set, enables "other events"
exactly when bit 61 is set and "disabled-by-default other events" exactly
when bit 62 is set, caches `k` as the last-seen keyword, and returns
`true` ("changed"). -/
theorem decode_new_keyword_sets_bits (s : TraceEventETWExportState) (k : Nat)
    (h : k ≠ s.etw_match_any_keyword) :
    (UpdateEnabledCategories s k).1 = true ∧
    (UpdateEnabledCategories s k).2.etw_match_any_keyword = k ∧
    (∀ i (hi : i < kFilteredEventGroupNames.length),
      mapFind (UpdateEnabledCategories s k).2.categories_status
        (kFilteredEventGroupNames.get ⟨i, hi⟩) = some (k.testBit i)) ∧
    mapFind (UpdateEnabledCategories s k).2.categories_status kOtherEventsGroupName =
      some (k.testBit 61) ∧
    mapFind (UpdateEnabledCategories s k).2.categories_status kDisabledOtherEventsGroupName =
      some (k.testBit 62) := by
  have hb : ¬ (s.etw_match_any_keyword == k) = true := by
    simp only [beq_iff_eq]
    exact fun e => h e.symm
  have hred : UpdateEnabledCategories s k =
      (true, { etw_match_any_keyword := k, categories_status :=
        (mapInsert
          (mapInsert
            (setFilteredCategories k 0 kFilteredEventGroupNames s.categories_status)
            kOtherEventsGroupName (k &&& kOtherEventsKeywordBit != 0))
          kDisabledOtherEventsGroupName
          (k &&& kDisabledOtherEventsKeywordBit != 0)) }) := by
    unfold UpdateEnabledCategories
    rw [if_neg hb]
  rw [hred]
  refine ⟨rfl, rfl, ?_, ?_, ?_⟩
  · intro i hi
    have hmem : kFilteredEventGroupNames.get ⟨i, hi⟩ ∈ kFilteredEventGroupNames :=
      List.get_mem _ _ _
    have h62 : kDisabledOtherEventsGroupName ≠ kFilteredEventGroupNames.get ⟨i, hi⟩ := by
      intro e
      rw [← e] at hmem
      revert hmem
      decide
    have h61 : kOtherEventsGroupName ≠ kFilteredEventGroupNames.get ⟨i, hi⟩ := by
      intro e
      rw [← e] at hmem
      revert hmem
      decide
    show mapFind _ _ = _
    rw [mapFind_mapInsert, if_neg h62, mapFind_mapInsert, if_neg h61,
      mapFind_setFilteredCategories_get k kFilteredEventGroupNames (by decide) 0 _ i hi,
      Nat.zero_add, and_one_shiftLeft_bne_zero]
  · show mapFind _ _ = _
    rw [mapFind_mapInsert, if_neg (by decide), mapFind_mapInsert, if_pos rfl,
      show kOtherEventsKeywordBit = 1 <<< 61 from rfl, and_one_shiftLeft_bne_zero]
  · show mapFind _ _ = _
    rw [mapFind_mapInsert, if_pos rfl,
      show kDisabledOtherEventsKeywordBit = 1 <<< 62 from rfl, and_one_shiftLeft_bne_zero]

/-- Witness for C1 at the spec's concrete scenario
`decode(0x8000000000000009)` from the freshly-constructed state: changed,
"benchmark" (bit 0) and "cc" (bit 3) on, "blink" off, "other events" off. -/
theorem decode_new_keyword_sets_bits_witness :
    (UpdateEnabledCategories initialState 0x8000000000000009).1 = true ∧
    mapFind (UpdateEnabledCategories initialState 0x8000000000000009).2.categories_status
      "benchmark" = some true ∧
    mapFind (UpdateEnabledCategories initialState 0x8000000000000009).2.categories_status
      "cc" = some true ∧
    mapFind (UpdateEnabledCategories initialState 0x8000000000000009).2.categories_status
      "blink" = some false ∧
    mapFind (UpdateEnabledCategories initialState 0x8000000000000009).2.categories_status
      kOtherEventsGroupName = some false := by
  have h := decode_new_keyword_sets_bits initialState 0x8000000000000009 (by decide)
  refine ⟨h.1, ?_, ?_, ?_, ?_⟩
  · have h0 := h.2.2.1 0 (by decide)
    rw [show (0x8000000000000009 : Nat).testBit 0 = true from by decide] at h0
    exact h0
  · have h3 := h.2.2.1 3 (by decide)
    rw [show (0x8000000000000009 : Nat).testBit 3 = true from by decide] at h3
    exact h3
  · have h1 := h.2.2.1 1 (by decide)
    rw [show (0x8000000000000009 : Nat).testBit 1 = false from by decide] at h1
    exact h1
  · have h61 := h.2.2.2.1
    rw [show (0x8000000000000009 : Nat).testBit 61 = false from by decide] at h61
    exact h61

/-- C2: the constructor's seeding loop maps exactly the fixed category
names — the filtered names plus the two synthetic names — each to
`false`, so the registry size is the filtered count plus 2
(`kNumberOfCategories`); and `decode` never changes this key set: from
any state with the seeded key set, `UpdateEnabledCategories` only
rewrites values, leaving the key list and the size invariant intact. -/
theorem seed_fixed_key_set :
    mapKeys initialState.categories_status = allCategoryNames ∧
    initialState.categories_status.length = kNumberOfCategories ∧
    (∀ n ∈ allCategoryNames, mapFind initialState.categories_status n = some false) ∧
    (∀ (s : TraceEventETWExportState) (k : Nat),
      mapKeys s.categories_status = allCategoryNames →
        mapKeys (UpdateEnabledCategories s k).2.categories_status = allCategoryNames ∧
        (UpdateEnabledCategories s k).2.categories_status.length = kNumberOfCategories) := by
  have hlen : ∀ m : CategoriesStatus, mapKeys m = allCategoryNames →
      m.length = kNumberOfCategories := by
    intro m hm
    rw [length_eq_length_mapKeys, hm]
    decide
  refine ⟨by decide, by decide, by decide, ?_⟩
  intro s k hkeys
  by_cases hb : (s.etw_match_any_keyword == k) = true
  · have hsame : UpdateEnabledCategories s k = (false, s) := by
      unfold UpdateEnabledCategories
      rw [if_pos hb]
    rw [hsame]
    exact ⟨hkeys, hlen _ hkeys⟩
  · have hred : (UpdateEnabledCategories s k).2.categories_status =
        mapInsert (mapInsert
          (setFilteredCategories k 0 kFilteredEventGroupNames s.categories_status)
          kOtherEventsGroupName (k &&& kOtherEventsKeywordBit != 0))
          kDisabledOtherEventsGroupName (k &&& kDisabledOtherEventsKeywordBit != 0) := by
      unfold UpdateEnabledCategories
      rw [if_neg hb]
    have h1 : mapKeys (setFilteredCategories k 0 kFilteredEventGroupNames
        s.categories_status) = allCategoryNames := by
      rw [mapKeys_setFilteredCategories _ _ _ _
        (fun n hn => by rw [hkeys]; exact List.mem_append_left _ hn), hkeys]
    have h2 : mapKeys (mapInsert (setFilteredCategories k 0 kFilteredEventGroupNames
        s.categories_status) kOtherEventsGroupName
        (k &&& kOtherEventsKeywordBit != 0)) = allCategoryNames := by
      rw [mapKeys_mapInsert_of_mem _ _ _ (by rw [h1]; decide), h1]
    have h3 : mapKeys ((UpdateEnabledCategories s k).2.categories_status) =
        allCategoryNames := by
      rw [hred, mapKeys_mapInsert_of_mem _ _ _ (by rw [h2]; decide), h2]
    exact ⟨h3, hlen _ h3⟩

/-- Witness for C2: the key-set preservation applied to the seeded state
with keyword 5, and a seeded lookup. -/
theorem seed_fixed_key_set_witness :
    mapKeys (UpdateEnabledCategories initialState 5).2.categories_status = allCategoryNames ∧
    (UpdateEnabledCategories initialState 5).2.categories_status.length = kNumberOfCategories ∧
    mapFind initialState.categories_status "gpu" = some false := by
  refine ⟨?_, ?_, ?_⟩
  · exact (seed_fixed_key_set.2.2.2 initialState 5 (by decide)).1
  · exact (seed_fixed_key_set.2.2.2 initialState 5 (by decide)).2
  · exact seed_fixed_key_set.2.2.1 "gpu" (by decide)

/-- C5: `IsCategoryEnabled` first does an exact-match lookup and returns
the stored boolean when the name is a key; a name that is not a key falls
back to the stored state of "disabled-by-default other events" when it
textually starts with the disabled-by-default marker, and to the stored
state of "other events" otherwise. -/
theorem isCategoryEnabled_lookup_and_fallback (s : TraceEventETWExportState)
    (n : String) (b : Bool) :
    (mapFind s.categories_status n = some b → IsCategoryEnabled s n = b) ∧
    (mapFind s.categories_status n = none →
      stringStartsWith n "disabled-by-default" = true →
      mapFind s.categories_status kDisabledOtherEventsGroupName = some b →
      IsCategoryEnabled s n = b) ∧
    (mapFind s.categories_status n = none →
      stringStartsWith n "disabled-by-default" = false →
      mapFind s.categories_status kOtherEventsGroupName = some b →
      IsCategoryEnabled s n = b) := by
  refine ⟨?_, ?_, ?_⟩
  · intro hf
    simp [IsCategoryEnabled, hf]
  · intro hf hpre hd
    simp [IsCategoryEnabled, hf, hpre, hd]
  · intro hf hpre ho
    simp [IsCategoryEnabled, hf, hpre, ho]

/-- Witness for C5 on the seeded registry: a known name, an unknown name
with the disabled-by-default marker, and an unknown name without it. -/
theorem isCategoryEnabled_lookup_and_fallback_witness :
    IsCategoryEnabled initialState "benchmark" = false ∧
    IsCategoryEnabled initialState "disabled-by-default-memory" = false ∧
    IsCategoryEnabled initialState "unknown_group" = false := by
  refine ⟨?_, ?_, ?_⟩
  · exact (isCategoryEnabled_lookup_and_fallback initialState "benchmark" false).1 (by decide)
  · exact (isCategoryEnabled_lookup_and_fallback initialState "disabled-by-default-memory"
      false).2.1 (by decide) (by decide) (by decide)
  · exact (isCategoryEnabled_lookup_and_fallback initialState "unknown_group"
      false).2.2 (by decide) (by decide) (by decide)

/-! Tokenizer lemmas for C4: the scanning tokenizer equals the
declarative comma split with empty pieces dropped. -/

theorem splitCommasSpec_ne_nil (l : List Char) : splitCommasSpec l ≠ [] := by
  cases l with
  | nil => simp [splitCommasSpec]
  | cons c rest =>
    simp only [splitCommasSpec]
    by_cases h : c = ','
    · simp [h]
    · simp only [h, if_false]
      cases splitCommasSpec rest <;> simp

theorem dropWhile_head_false {α : Type} (p : α → Bool) (l : List α) (d : α) (r : List α)
    (h : l.dropWhile p = d :: r) : p d = false := by
  induction l with
  | nil => simp [List.dropWhile] at h
  | cons c rest ih =>
    by_cases hc : p c
    · rw [List.dropWhile_cons_of_pos hc] at h
      exact ih h
    · rw [List.dropWhile_cons_of_neg hc] at h
      injection h with h1 _
      subst h1
      simp only [Bool.not_eq_true] at hc
      exact hc

theorem splitCommasSpec_eq_takeWhile_cons (l : List Char) :
    splitCommasSpec l = l.takeWhile (· != ',') ::
      (match l.dropWhile (· != ',') with
       | [] => []
       | _ :: r => splitCommasSpec r) := by
  induction l with
  | nil => simp [splitCommasSpec]
  | cons c rest ih =>
    by_cases h : c = ','
    · subst h
      simp [splitCommasSpec, List.takeWhile_cons, List.dropWhile_cons]
    · have hb : (c != ',') = true := by simp [h]
      simp only [splitCommasSpec, h, if_false, List.takeWhile_cons, List.dropWhile_cons, hb,
        if_true]
      rw [ih]

theorem tokenizeCommas_eq_filter_splitCommasSpec (l : List Char) :
    tokenizeCommas l = (splitCommasSpec l).filter (fun t => !t.isEmpty) := by
  induction l using tokenizeCommas.induct with
  | case1 => simp [tokenizeCommas, splitCommasSpec]
  | case2 rest ih =>
    simp only [tokenizeCommas, if_pos rfl, splitCommasSpec]
    rw [ih]
    simp
  | case3 c rest h ih =>
    have hb : (c != ',') = true := by simp [h]
    rw [tokenizeCommas, if_neg h, splitCommasSpec_eq_takeWhile_cons]
    simp only [List.takeWhile_cons, List.dropWhile_cons, hb, if_true]
    rw [List.filter_cons_of_pos (by simp)]
    refine congrArg _ ?_
    cases hdw : rest.dropWhile (· != ',') with
    | nil => simp [tokenizeCommas]
    | cons d r =>
      have hd : (d != ',') = false := dropWhile_head_false (· != ',') rest d r hdw
      have hd' : d = ',' := by simpa using hd
      subst hd'
      rw [hdw] at ih
      rw [tokenizeCommas, if_pos rfl] at ih
      change tokenizeCommas (',' :: r) = List.filter (fun t => !t.isEmpty) (splitCommasSpec r)
      rw [tokenizeCommas, if_pos rfl, ih, splitCommasSpec, if_pos rfl, List.filter_cons]
      simp

/-- C4: for a non-empty category-group string, `IsCategoryGroupEnabled`
returns (without tripping the assertion) `true` exactly when the instance
exists, the ETW listener is active, and `IsCategoryEnabled` holds for at
least one token of the comma split; with no instance or no listener it
returns `false` regardless of the tokens. -/
theorem isCategoryGroupEnabled_any_token (instanceExists eventEnabled : Bool)
    (s : TraceEventETWExportState) (g : String) (hg : g.isEmpty = false) :
    IsCategoryGroupEnabled instanceExists eventEnabled s g =
      some (instanceExists && eventEnabled &&
        ((splitCommasSpec g.data).filter (fun t => !t.isEmpty)).any
          (fun tok => IsCategoryEnabled s (String.mk tok))) := by
  rw [IsCategoryGroupEnabled, if_neg (by simp [hg]), tokenizeCommas_eq_filter_splitCommasSpec]
  cases instanceExists <;> cases eventEnabled <;> simp

/-- Witness for C4: a two-token group on the seeded registry. -/
theorem isCategoryGroupEnabled_any_token_witness :
    IsCategoryGroupEnabled true true initialState "benchmark,unknown_group" =
      some (true && true &&
        ((splitCommasSpec ("benchmark,unknown_group").data).filter (fun t => !t.isEmpty)).any
          (fun tok => IsCategoryEnabled initialState (String.mk tok))) :=
  isCategoryGroupEnabled_any_token true true initialState "benchmark,unknown_group" rfl

/-- C7: the `switch` of `AddEvent` maps every phase code outside the
fixed table to the one-character string of exactly that code (the
fallback applies to any unlisted code, reserved meanings included), and
maps each of the 20 known phase codes to its documented label. -/
theorem phase_table_and_fallback :
    (∀ c, c ∉ knownPhaseChars → getPhaseString c = String.mk [c]) ∧
    getPhaseString TRACE_EVENT_PHASE_BEGIN = "Begin" ∧
    getPhaseString TRACE_EVENT_PHASE_END = "End" ∧
    getPhaseString TRACE_EVENT_PHASE_COMPLETE = "Complete" ∧
    getPhaseString TRACE_EVENT_PHASE_INSTANT = "Instant" ∧
    getPhaseString TRACE_EVENT_PHASE_ASYNC_BEGIN = "Async Begin" ∧
    getPhaseString TRACE_EVENT_PHASE_ASYNC_STEP_INTO = "Async Step Into" ∧
    getPhaseString TRACE_EVENT_PHASE_ASYNC_STEP_PAST = "Async Step Past" ∧
    getPhaseString TRACE_EVENT_PHASE_ASYNC_END = "Async End" ∧
    getPhaseString TRACE_EVENT_PHASE_NESTABLE_ASYNC_BEGIN = "Nestable Async Begin" ∧
    getPhaseString TRACE_EVENT_PHASE_NESTABLE_ASYNC_END = "Nestable Async End" ∧
    getPhaseString TRACE_EVENT_PHASE_NESTABLE_ASYNC_INSTANT = "Nestable Async Instant" ∧
    getPhaseString TRACE_EVENT_PHASE_FLOW_BEGIN = "Phase Flow Begin" ∧
    getPhaseString TRACE_EVENT_PHASE_FLOW_STEP = "Phase Flow Step" ∧
    getPhaseString TRACE_EVENT_PHASE_FLOW_END = "Phase Flow End" ∧
    getPhaseString TRACE_EVENT_PHASE_METADATA = "Phase Metadata" ∧
    getPhaseString TRACE_EVENT_PHASE_COUNTER = "Phase Counter" ∧
    getPhaseString TRACE_EVENT_PHASE_SAMPLE = "Phase Sample" ∧
    getPhaseString TRACE_EVENT_PHASE_CREATE_OBJECT = "Phase Create Object" ∧
    getPhaseString TRACE_EVENT_PHASE_SNAPSHOT_OBJECT = "Phase Snapshot Object" ∧
    getPhaseString TRACE_EVENT_PHASE_DELETE_OBJECT = "Phase Delete Object" := by
  constructor
  · intro c hc
    have hne : ∀ d ∈ knownPhaseChars, c ≠ d := fun d hd e => hc (by rw [e]; exact hd)
    unfold getPhaseString
    repeat rw [if_neg (hne _ (by decide))]
  · decide

/-- Witness for C7's fallback at `'R'`, a phase code with a reserved
meaning (`TRACE_EVENT_PHASE_MARK`) that the table does not list. -/
theorem phase_table_and_fallback_witness :
    getPhaseString 'R' = String.mk ['R'] :=
  phase_table_and_fallback.1 'R' (by decide)

/-- C8: the rendering loop of `AddEvent` skips exactly the arguments of
the convertible kind, per argument: for an argument list whose element 0
is convertible and whose element 1 is any other kind, the write receives
the empty string in value slot 0 and the rendered JSON-ish value in slot
1; the convertible value is never rendered. -/
theorem addEvent_skips_convertible_per_argument (ph : Char) (nm : String) (a0 a1 : TraceArg)
    (h0 : a0.type = TraceValueType.typeConvertable)
    (h1 : a1.type ≠ TraceValueType.typeConvertable)
    (hsz : [a0, a1].length ≤ kTraceArgumentsMaxSize) :
    AddEvent true true ph nm (some ⟨[a0, a1], hsz⟩) =
      some (some
        { eventName := nm, phaseLabel := getPhaseString ph,
          argName1 := a0.name, argVal1 := "",
          argName2 := a1.name, argVal2 := a1.jsonValue,
          field7 := "", field8 := "" }) := by
  simp [AddEvent, renderArgValues, h0, h1, storeModify, appendAsJSON]

/-- Witness for C8: a convertible argument followed by an int argument. -/
theorem addEvent_skips_convertible_per_argument_witness :
    AddEvent true true 'B' "MyEvent"
        (some ⟨[⟨"heavy", TraceValueType.typeConvertable, "skipped"⟩,
                ⟨"count", TraceValueType.typeInt, "42"⟩], by decide⟩) =
      some (some
        { eventName := "MyEvent", phaseLabel := getPhaseString 'B',
          argName1 := "heavy", argVal1 := "",
          argName2 := "count", argVal2 := "42",
          field7 := "", field8 := "" }) :=
  addEvent_skips_convertible_per_argument 'B' "MyEvent"
    ⟨"heavy", TraceValueType.typeConvertable, "skipped"⟩
    ⟨"count", TraceValueType.typeInt, "42"⟩ rfl (by decide) (by decide)

/-! Lemmas for C9: the rendering loop performs no out-of-bounds store
access when the argument count fits the storage. -/

theorem storeModify_isSome (store : List String) (i : Nat) (f : String → String)
    (h : i < store.length) :
    ∃ store', storeModify store i f = some store' ∧ store'.length = store.length := by
  induction store generalizing i with
  | nil => simp at h
  | cons x rest ih =>
    cases i with
    | zero => exact ⟨f x :: rest, rfl, rfl⟩
    | succ n =>
      obtain ⟨s', hs', hl⟩ := ih n (by simpa using Nat.lt_of_succ_lt_succ h)
      exact ⟨x :: s', by simp [storeModify, hs'], by simp [hl]⟩

theorem renderArgValues_isSome (argL : List TraceArg) (i : Nat) (store : List String)
    (h : argL.length + i ≤ store.length) :
    ∃ store', renderArgValues argL i store = some store' ∧
      store'.length = store.length := by
  induction argL generalizing i store with
  | nil => exact ⟨store, rfl, rfl⟩
  | cons arg rest ih =>
    simp only [List.length_cons] at h
    by_cases ht : arg.type = TraceValueType.typeConvertable
    · obtain ⟨s', hs', hl⟩ := ih (i + 1) store (by omega)
      exact ⟨s', by simp [renderArgValues, ht, hs'], hl⟩
    · obtain ⟨s1, hs1, hl1⟩ := storeModify_isSome store i (appendAsJSON arg) (by omega)
      obtain ⟨s2, hs2, hl2⟩ := ih (i + 1) s1 (by omega)
      exact ⟨s2, by simp [renderArgValues, ht, hs1, hs2], by rw [hl2, hl1]⟩

/-- C9: for every argument list (its size is capped at
`kTraceArgumentsMaxSize = 2` by `TraceArguments`), `AddEvent` never hits
an out-of-bounds access on its 3-slot string storage (the result is never
the failure value), and the write forwards at most the first two
(name, value) pairs — its name fields are drawn only from positions 0 and
1, and the two trailing fields are empty. -/
theorem addEvent_never_out_of_bounds (instanceExists eventEnabled : Bool) (ph : Char)
    (nm : String) (args : Option TraceArguments) :
    (AddEvent instanceExists eventEnabled ph nm args).isSome = true ∧
    (∀ w, AddEvent instanceExists eventEnabled ph nm args = some (some w) →
      w.argName1 = (match (match args with | some a => a.argList | none => []) with
        | [] => ""
        | a :: _ => a.name) ∧
      w.argName2 = (match (match args with | some a => a.argList | none => []) with
        | _ :: b :: _ => b.name
        | _ => "") ∧
      w.field7 = "" ∧ w.field8 = "") := by
  by_cases hg : (!instanceExists || !eventEnabled) = true
  · constructor
    · simp [AddEvent, hg]
    · intro w hw
      simp [AddEvent, hg] at hw
  · have hlen : (match args with | some a => a.argList | none => []).length + 0 ≤
        (["", "", ""] : List String).length := by
      cases args with
      | none => simp
      | some a =>
        have := a.size_le_max
        simp only [kTraceArgumentsMaxSize] at this
        simpa using Nat.le_trans this (by omega)
    obtain ⟨s', hs', -⟩ := renderArgValues_isSome _ 0 _ hlen
    constructor
    · simp [AddEvent, hg, hs']
    · intro w hw
      simp only [AddEvent, hg, Bool.false_eq_true, if_false, hs'] at hw
      have hw' := (Option.some_injective _ (Option.some_injective _ hw)).symm
      subst hw'
      refine ⟨?_, ?_, rfl, rfl⟩
      · cases hargs : (match args with | some a => a.argList | none => []) with
        | nil => simp [hargs]
        | cons a rest => simp [hargs]
      · cases hargs : (match args with | some a => a.argList | none => []) with
        | nil => simp [hargs]
        | cons a rest => cases rest <;> simp [hargs]

/-- Witness for C9 at a full two-argument list with an active listener:
the call succeeds and the spec scenario's write fields are populated from
the first two pairs. -/
theorem addEvent_never_out_of_bounds_witness :
    (AddEvent true true 'B' "MyEvent"
      (some ⟨[⟨"x", TraceValueType.typeInt, "1"⟩,
              ⟨"y", TraceValueType.typeString, "s"⟩], by decide⟩)).isSome = true ∧
    ({ eventName := "MyEvent", phaseLabel := "Begin",
       argName1 := "x", argVal1 := "1", argName2 := "y", argVal2 := "s",
       field7 := "", field8 := "" } : ChromeEventFields).argName1 = "x" := by
  have h := addEvent_never_out_of_bounds true true 'B' "MyEvent"
    (some ⟨[⟨"x", TraceValueType.typeInt, "1"⟩,
            ⟨"y", TraceValueType.typeString, "s"⟩], by decide⟩)
  exact ⟨h.1, (h.2 _ (by decide)).1⟩

/-- C10: skipping a convertible argument omits only its value: for a
one-argument list of the convertible kind, the write still receives that
argument's name in positional slot 0, paired with an empty value. -/
theorem addEvent_convertible_keeps_name (ph : Char) (nm : String) (a0 : TraceArg)
    (h0 : a0.type = TraceValueType.typeConvertable)
    (hsz : [a0].length ≤ kTraceArgumentsMaxSize) :
    AddEvent true true ph nm (some ⟨[a0], hsz⟩) =
      some (some
        { eventName := nm, phaseLabel := getPhaseString ph,
          argName1 := a0.name, argVal1 := "",
          argName2 := "", argVal2 := "",
          field7 := "", field8 := "" }) := by
  simp [AddEvent, renderArgValues, h0]

/-- Witness for C10 at a concrete convertible argument. -/
theorem addEvent_convertible_keeps_name_witness :
    AddEvent true true 'X' "Ev"
        (some ⟨[⟨"payload", TraceValueType.typeConvertable, "dropped"⟩], by decide⟩) =
      some (some
        { eventName := "Ev", phaseLabel := getPhaseString 'X',
          argName1 := "payload", argVal1 := "",
          argName2 := "", argVal2 := "",
          field7 := "", field8 := "" }) :=
  addEvent_convertible_keeps_name 'X' "Ev"
    ⟨"payload", TraceValueType.typeConvertable, "dropped"⟩ rfl (by decide)

end EtwExport
